import Mathlib

/-!
Shallow embedding of the mutemath notification classifier and its polling
coordinator.  Go strings are modelled as `List Char`; Go's per-byte/char
operations (`strings.Split` on "/", `strings.EqualFold`, `strconv.Atoi`)
are translated below.  `EqualFold` is modelled with ASCII case folding.
-/

namespace Mutemath

abbrev Str := List Char

/-- ASCII lower-casing of a string, the folding used to model
`strings.EqualFold`. -/
def strLower (s : Str) : Str := s.map Char.toLower

/-- Model of Go `strings.EqualFold` (ASCII simple folding). -/
def eqFold (a b : Str) : Bool := strLower a == strLower b

-- Domain types, from core (part_000).

structure Subject where
  title : Str
  url : Str
  type : Str
deriving DecidableEq

structure Repository where
  fullName : Str
  owner : Str
deriving DecidableEq

structure Notification where
  id : Str
  reason : Str
  subject : Subject
  repository : Repository
deriving DecidableEq

structure Reviewers where
  users : List Str
  teams : List Str
deriving DecidableEq

inductive Action where
  | skip
  | keep
  | mute
deriving DecidableEq

structure Decision where
  notification : Notification
  action : Action
  reason : Str
deriving DecidableEq

structure PRRef where
  owner : Str
  repo : Str
  number : Int
deriving DecidableEq

structure Config where
  includeOrg : Str
  excludeOrg : Str
deriving DecidableEq

-- Model of Go `strings.Split(s, "/")` (single-character separator).

def splitSlash : Str → List Str
  | [] => [[]]
  | c :: rest =>
    if c = '/' then [] :: splitSlash rest
    else
      match splitSlash rest with
      | s :: ss => (c :: s) :: ss
      | [] => [[c]]

/-- `dropRoot root s` models `strings.HasPrefix` + `strings.TrimPrefix`:
`some rest` iff `s = root ++ rest`. -/
def dropRoot : Str → Str → Option Str
  | [], s => some s
  | _ :: _, [] => none
  | c :: cs, d :: ds => if c = d then dropRoot cs ds else none

-- Model of Go `strconv.Atoi` (= ParseInt(s, 10, 64)): optional sign,
-- one or more ASCII digits, 64-bit range check; `none` models an error.

def digitsVal (s : Str) : Option Nat :=
  if s ≠ [] ∧ s.all Char.isDigit then
    some (s.foldl (fun acc c => acc * 10 + (c.toNat - 48)) 0)
  else none

def int64Max : Int := 2 ^ 63 - 1

def goAtoi (s : Str) : Option Int :=
  match s with
  | [] => none
  | c :: rest =>
    if c = '+' then
      (digitsVal rest).bind fun n =>
        if (n : Int) ≤ int64Max then some (n : Int) else none
    else if c = '-' then
      (digitsVal rest).bind fun n =>
        if (n : Int) ≤ 2 ^ 63 then some (-(n : Int)) else none
    else
      (digitsVal s).bind fun n =>
        if (n : Int) ≤ int64Max then some (n : Int) else none

/-- Typed errors of `ParseSubjectURL`. -/
inductive URLError where
  | badRoot (url : Str)
  | badStructure (url : Str)
  | badNumber (url : Str)
deriving DecidableEq

def apiRoot : Str := "https://api.github.com/repos/".data

/-- Embedding of core.ParseSubjectURL. -/
def ParseSubjectURL (url : Str) : Except URLError PRRef :=
  match dropRoot apiRoot url with
  | none => .error (.badRoot url)
  | some rest =>
    match splitSlash rest with
    | [owner, repo, p, numStr] =>
      if p = "pulls".data then
        match goAtoi numStr with
        | some n => .ok ⟨owner, repo, n⟩
        | none => .error (.badNumber url)
      else .error (.badStructure url)
    | _ => .error (.badStructure url)

/-- Embedding of core.MatchesOrgFilter. -/
def MatchesOrgFilter (n : Notification) (cfg : Config) : Bool :=
  let org := n.repository.owner
  if cfg.includeOrg != [] && !eqFold org cfg.includeOrg then false
  else if cfg.excludeOrg != [] && eqFold org cfg.excludeOrg then false
  else true

/-- Embedding of core.NeedsReviewerLookup. -/
def NeedsReviewerLookup (n : Notification) (cfg : Config) : Bool :=
  if n.reason != "review_requested".data then false
  else if n.subject.type != "PullRequest".data then false
  else MatchesOrgFilter n cfg

/-- Embedding of core.Classify.  `reviewers = none` models a nil pointer. -/
def Classify (n : Notification) (reviewers : Option Reviewers) (login : Str)
    (cfg : Config) : Decision :=
  if !MatchesOrgFilter n cfg then
    ⟨n, .skip, "filtered by org".data⟩
  else if n.reason != "review_requested".data || n.subject.type != "PullRequest".data then
    ⟨n, .skip, "not a review-requested PR".data⟩
  else
    match reviewers with
    | none => ⟨n, .skip, "no reviewer data".data⟩
    | some rs =>
      if rs.users.any (fun user => eqFold user login) then
        ⟨n, .keep, "direct review request".data⟩
      else
        ⟨n, .mute, "team-only review request".data⟩

/-- Embedding of core.ClassifyAll; the Go map is modelled as a total
function returning `none` for missing keys (nil pointers). -/
def ClassifyAll (notifications : List Notification)
    (reviewersByURL : Str → Option Reviewers) (login : Str) (cfg : Config) :
    List Decision :=
  notifications.foldl
    (fun decisions n => decisions ++ [Classify n (reviewersByURL n.subject.url) login cfg])
    []

/-- Embedding of core.CountByAction: (skip, keep, mute) counters. -/
def CountByAction : List Decision → Nat × Nat × Nat
  | [] => (0, 0, 0)
  | d :: rest =>
    let c := CountByAction rest
    match d.action with
    | .skip => (c.1 + 1, c.2.1, c.2.2)
    | .keep => (c.1, c.2.1 + 1, c.2.2)
    | .mute => (c.1, c.2.1, c.2.2 + 1)

-- Coordinator model (main.go).  The GitHub client is abstracted as a pure
-- oracle: `getReviewers` returns `none` on a failed lookup, `markRead` and
-- `ignoreThread` return the success of the corresponding mutation call.

structure Client where
  login : Str
  getReviewers : Str → Option Reviewers
  markRead : Str → Bool
  ignoreThread : Str → Bool

/-- Observable I/O calls issued by one cycle, in order. -/
inductive Event where
  | fetch (url : Str)
  | mark (id : Str)
  | ignore (id : Str)
deriving DecidableEq

structure ProcState where
  reviewersByURL : List (Str × Reviewers)
  decisions : List Decision
  errCount : Nat
  log : List Event

/-- The reviewer-fetch step of the loop body of main.processNotifications:
fetch reviewer data if needed, with dedup through the per-cycle map.  Only
a successful lookup is stored; a failure is merely logged. -/
def lookupStep (client : Client) (cfg : Config) (st : ProcState)
    (n : Notification) : ProcState :=
  if NeedsReviewerLookup n cfg then
    match st.reviewersByURL.lookup n.subject.url with
    | some _ => st
    | none =>
      match client.getReviewers n.subject.url with
      | some rs =>
        { st with reviewersByURL := (n.subject.url, rs) :: st.reviewersByURL,
                  log := st.log ++ [.fetch n.subject.url] }
      | none =>
        { st with log := st.log ++ [.fetch n.subject.url] }
  else st

/-- The mutation step of the loop body: on a Mute decision under --apply,
mark the thread read and, only when that succeeded, ignore it; either
failure counts one error for this decision. -/
def mutateStep (client : Client) (apply : Bool) (st : ProcState)
    (d : Decision) : ProcState :=
  if apply ∧ d.action = Action.mute then
    if client.markRead d.notification.id then
      let st3 := { st with
        log := st.log ++ [.mark d.notification.id, .ignore d.notification.id] }
      if client.ignoreThread d.notification.id then st3
      else { st3 with errCount := st3.errCount + 1 }
    else
      { st with log := st.log ++ [.mark d.notification.id],
                errCount := st.errCount + 1 }
  else st

/-- One iteration of the loop body of main.processNotifications. -/
def processOne (client : Client) (cfg : Config) (apply : Bool)
    (st : ProcState) (n : Notification) : ProcState :=
  let st1 := lookupStep client cfg st n
  let d := Classify n (st1.reviewersByURL.lookup n.subject.url) client.login cfg
  let st2 := { st1 with decisions := st1.decisions ++ [d] }
  mutateStep client apply st2 d

/-- Embedding of main.processNotifications. -/
def processNotifications (client : Client) (cfg : Config)
    (notifications : List Notification) (apply : Bool) : ProcState :=
  notifications.foldl (processOne client cfg apply) ⟨[], [], 0, []⟩

-- HTTP-layer model (github.go).  A response is the part of an HTTP
-- response the code inspects; a request's outcome is an oracle indexed by
-- attempt number (and, for pagination, by page).

structure HTTPResponse where
  status : Nat
  retryAfter : Str      -- Retry-After header; [] models absent/empty
  lastModified : Str    -- Last-Modified header
  pollInterval : Str    -- X-Poll-Interval header
  body : Option (List Notification)  -- decoded page; none = decode error
deriving DecidableEq

/-- Embedding of github.isRateLimited. -/
def isRateLimited (r : HTTPResponse) : Bool :=
  r.status == 429 || (r.status == 403 && r.retryAfter != [])

/-- Embedding of github.parseRetryAfter; the duration is in seconds. -/
def parseRetryAfter (r : HTTPResponse) : Int :=
  if r.retryAfter = [] then 60
  else
    match goAtoi r.retryAfter with
    | none => 60
    | some secs => secs

structure DoResult where
  response : HTTPResponse
  sleeps : List Int
deriving DecidableEq

/-- Embedding of GitHubClient.do: at most two attempts, retrying once when
the first response is rate limited, sleeping for the parsed duration. -/
def doRequest (respond : Nat → HTTPResponse) : DoResult :=
  let r0 := respond 0
  if isRateLimited r0 then ⟨respond 1, [parseRetryAfter r0]⟩
  else ⟨r0, []⟩

/-- The inline per-page retry of ListUnreadNotifications: returns the
effective response, the sleeps performed, and the (page, attempt) requests
issued. -/
def fetchPage (pages : Nat → Nat → HTTPResponse) (p : Nat) :
    HTTPResponse × List Int × List (Nat × Nat) :=
  let r0 := pages p 0
  if isRateLimited r0 then (pages p 1, [parseRetryAfter r0], [(p, 0), (p, 1)])
  else (r0, [], [(p, 0)])

structure NotificationsResult where
  notifications : List Notification
  notModified : Bool
  lastModified : Str
  pollInterval : Int  -- seconds; 0 models Go's zero Duration
deriving DecidableEq

inductive ListError where
  | badStatus (page : Nat) (status : Nat)
  | decodeFailure (page : Nat)
deriving DecidableEq

structure Trace where
  requests : List (Nat × Nat)
  sleeps : List Int
deriving DecidableEq

/-- First-page metadata capture of ListUnreadNotifications: keep the
Last-Modified header when present and the parsed X-Poll-Interval header
when it parses. -/
def captureMeta (resp : HTTPResponse) (res : NotificationsResult) :
    NotificationsResult :=
  let res1 :=
    if resp.lastModified ≠ [] then { res with lastModified := resp.lastModified }
    else res
  match goAtoi resp.pollInterval with
  | some secs => { res1 with pollInterval := secs }
  | none => res1

/-- The pagination loop of ListUnreadNotifications, with fuel for
termination; `none` means the fuel ran out before the loop finished. -/
def listUnreadAux (pages : Nat → Nat → HTTPResponse) (page : Nat)
    (acc : List Notification) (res : NotificationsResult) (tr : Trace) :
    Nat → Option (Except ListError NotificationsResult × Trace)
  | 0 => none
  | fuel + 1 =>
    let fp := fetchPage pages page
    let resp := fp.1
    let tr := { requests := tr.requests ++ fp.2.2, sleeps := tr.sleeps ++ fp.2.1 }
    let res := if page = 1 then captureMeta resp res else res
    if resp.status = 304 then
      some (.ok { res with notModified := true }, tr)
    else if resp.status ≠ 200 then
      some (.error (.badStatus page resp.status), tr)
    else
      match resp.body with
      | none => some (.error (.decodeFailure page), tr)
      | some ns =>
        if ns = [] then some (.ok { res with notifications := acc }, tr)
        else listUnreadAux pages (page + 1) (acc ++ ns) res tr fuel

/-- Embedding of GitHubClient.ListUnreadNotifications.  The caller's
If-Modified-Since token only selects the server's responses and is folded
into the `pages` oracle. -/
def ListUnreadNotifications (pages : Nat → Nat → HTTPResponse) (fuel : Nat) :
    Option (Except ListError NotificationsResult × Trace) :=
  listUnreadAux pages 1 [] ⟨[], false, [], 0⟩ ⟨[], []⟩ fuel

-- Reporting paths (main.runOnce, main.runDaemon).

def intToStr (i : Int) : Str := (toString i).data

def noUnreadMessage : Str := "No unread notifications.".data

/-- The empty-inbox branch of main.runOnce: the message printed when the
fetch reports not-modified or returned no notifications; `none` when
processing continues. -/
def runOnceEmptyOutput (result : NotificationsResult) : Option Str :=
  if result.notModified || result.notifications.isEmpty then some noUnreadMessage
  else none

/-- Embedding of core.FormatDaemonCycleSummary; the rendered timestamp is
passed as an opaque string. -/
def FormatDaemonCycleSummary (ts : Str) (scanned muted errCount : Int)
    (notModified : Bool) : Str :=
  if notModified then ts ++ "  cycle: not modified\n".data
  else
    ts ++ "  cycle: ".data ++ intToStr scanned ++ " scanned, ".data ++
      intToStr muted ++ " muted, ".data ++ intToStr errCount ++ " errors\n".data

/-- The per-cycle reporting of main.runDaemon on a successful fetch:
`none` models printing nothing. -/
def runDaemonCycleOutput (ts : Str) (client : Client) (cfg : Config)
    (apply verbose : Bool) (result : NotificationsResult) : Option Str :=
  if result.notModified || result.notifications.isEmpty then
    if verbose then some (FormatDaemonCycleSummary ts 0 0 0 true) else none
  else
    let st := processNotifications client cfg result.notifications apply
    let muted := (CountByAction st.decisions).2.2
    some (FormatDaemonCycleSummary ts (st.decisions.length : Int)
      ((muted : Int) - (st.errCount : Int)) (st.errCount : Int) false)

-- Helper lemmas shared by the theorems below.

lemma eqFold_iff (a b : Str) : eqFold a b = true ↔ strLower a = strLower b := by
  simp [eqFold]

lemma any_eqFold_iff (l : List Str) (login : Str) :
    (l.any fun u => eqFold u login) = true ↔ ∃ u ∈ l, strLower u = strLower login := by
  simp [List.any_eq_true, eqFold_iff]

lemma foldl_append_eq_map (f : Notification → Decision) (ns : List Notification)
    (acc : List Decision) :
    ns.foldl (fun ds n => ds ++ [f n]) acc = acc ++ ns.map f := by
  induction ns generalizing acc with
  | nil => simp
  | cons n rest ih => simp [ih]

lemma countByAction_sum (ds : List Decision) :
    (CountByAction ds).1 + (CountByAction ds).2.1 + (CountByAction ds).2.2 = ds.length := by
  induction ds with
  | nil => rfl
  | cons d rest ih =>
    cases h : d.action <;> simp [CountByAction, h] <;> omega

-- Concrete values used by witnesses.

def exSubject : Subject :=
  ⟨"Fix bug".data, "https://api.github.com/repos/org/repo/pulls/42".data,
    "PullRequest".data⟩

def exPR : Notification :=
  ⟨"1".data, "review_requested".data, exSubject, ⟨"org/repo".data, "org".data⟩⟩

def exMention : Notification :=
  ⟨"3".data, "mention".data, ⟨"Issue 1".data, [], "Issue".data⟩,
    ⟨"org/repo".data, "org".data⟩⟩

def cfg0 : Config := ⟨[], []⟩

/-- C1: for every notification, acting-user login, config and optional
reviewer set, Classify returns Skip when the reason is not review-requested
or the subject kind is not pull request (whatever the reviewer data); and,
for notifications that pass the org filter and are pull-request review
requests, Skip when the reviewer set is absent, Keep when the acting user
case-insensitively appears in the user list, and Mute otherwise (so also
on an entirely empty reviewer set, where the Mute branch's universally
quantified hypothesis holds vacuously). -/
theorem classify_decision_table (n : Notification) (rev : Option Reviewers)
    (login : Str) (cfg : Config) :
    ((n.reason ≠ "review_requested".data ∨ n.subject.type ≠ "PullRequest".data) →
      (Classify n rev login cfg).action = Action.skip)
    ∧ (MatchesOrgFilter n cfg = true →
        n.reason = "review_requested".data → n.subject.type = "PullRequest".data →
        (rev = none → Classify n rev login cfg = ⟨n, .skip, "no reviewer data".data⟩)
        ∧ (∀ rs, rev = some rs →
            ((∃ u ∈ rs.users, strLower u = strLower login) →
              Classify n rev login cfg = ⟨n, .keep, "direct review request".data⟩)
            ∧ ((∀ u ∈ rs.users, strLower u ≠ strLower login) →
              Classify n rev login cfg = ⟨n, .mute, "team-only review request".data⟩))) := by
  constructor
  · intro h
    unfold Classify
    by_cases hm : MatchesOrgFilter n cfg
    · have hb : (n.reason != "review_requested".data
          || n.subject.type != "PullRequest".data) = true := by
        rcases h with h | h <;> simp [bne_iff_ne, h]
      simp [hm, hb]
    · simp [hm]
  · intro hm hr ht
    constructor
    · rintro rfl
      simp [Classify, hm, hr, ht]
    · rintro rs rfl
      constructor
      · intro hex
        have hany : (rs.users.any fun u => eqFold u login) = true :=
          (any_eqFold_iff rs.users login).mpr hex
        simp [Classify, hm, hr, ht, hany]
      · intro hall
        have hany : (rs.users.any fun u => eqFold u login) = false := by
          rw [Bool.eq_false_iff]
          intro hc
          obtain ⟨u, hu, he⟩ := (any_eqFold_iff rs.users login).mp hc
          exact hall u hu he
        simp [Classify, hm, hr, ht, hany]

/-- Witness for C1: a direct review request (login "me", users containing
"Me") is kept, via the Keep branch of the theorem. -/
theorem classify_decision_table_witness :
    Classify exPR (some ⟨["alice".data, "Me".data], ["backend".data]⟩) "me".data cfg0
      = ⟨exPR, .keep, "direct review request".data⟩ :=
  ((((classify_decision_table exPR
        (some ⟨["alice".data, "Me".data], ["backend".data]⟩) "me".data cfg0).2
      (by rfl) (by rfl) (by rfl)).2 _ rfl).1 ⟨"Me".data, by simp, by rfl⟩)

/-- C2: NeedsReviewerLookup is true exactly when the notification passes
the org filter, has reason review_requested and subject type PullRequest;
when it is false Classify skips for every reviewer argument, and when it
is true Classify reaches the reviewer-dependent branch: absent data gives
the "no reviewer data" Skip and present data gives Keep or Mute. -/
theorem needsReviewerLookup_spec (n : Notification) (cfg : Config) :
    (NeedsReviewerLookup n cfg = true ↔
      MatchesOrgFilter n cfg = true ∧ n.reason = "review_requested".data ∧
        n.subject.type = "PullRequest".data)
    ∧ (NeedsReviewerLookup n cfg = false →
        ∀ rev login, (Classify n rev login cfg).action = Action.skip)
    ∧ (NeedsReviewerLookup n cfg = true →
        ∀ login, Classify n none login cfg = ⟨n, .skip, "no reviewer data".data⟩
          ∧ ∀ rs, ((Classify n (some rs) login cfg).action = Action.keep ∨
                   (Classify n (some rs) login cfg).action = Action.mute)) := by
  have hiff : NeedsReviewerLookup n cfg = true ↔
      MatchesOrgFilter n cfg = true ∧ n.reason = "review_requested".data ∧
        n.subject.type = "PullRequest".data := by
    unfold NeedsReviewerLookup
    by_cases h1 : n.reason = "review_requested".data <;>
      by_cases h2 : n.subject.type = "PullRequest".data <;>
        simp [h1, h2, bne_iff_ne, and_comm]
  refine ⟨hiff, ?_, ?_⟩
  · intro hfalse rev login
    unfold Classify
    by_cases hm : MatchesOrgFilter n cfg
    · have hnot : ¬(n.reason = "review_requested".data ∧
          n.subject.type = "PullRequest".data) := by
        intro ⟨h1, h2⟩
        have := hiff.mpr ⟨hm, h1, h2⟩
        rw [hfalse] at this
        exact Bool.false_ne_true this
      by_cases h1 : n.reason = "review_requested".data
      · have h2 : n.subject.type ≠ "PullRequest".data := fun h2 => hnot ⟨h1, h2⟩
        simp [hm, h1, h2, bne_iff_ne]
      · simp [hm, h1, bne_iff_ne]
    · simp [hm]
  · intro htrue login
    obtain ⟨hm, h1, h2⟩ := hiff.mp htrue
    constructor
    · simp [Classify, hm, h1, h2]
    · intro rs
      by_cases hany : (rs.users.any fun u => eqFold u login) = true
      · left; simp [Classify, hm, h1, h2, hany]
      · right; simp [Classify, hm, h1, h2, Bool.eq_false_iff.mpr hany]

/-- Witness for C2: a "mention" notification needs no lookup and skips
with absent reviewer data. -/
theorem needsReviewerLookup_spec_witness :
    (Classify exMention none "me".data cfg0).action = Action.skip :=
  (needsReviewerLookup_spec exMention cfg0).2.1 (by rfl) none "me".data

/-- C6: the org filter passes exactly when the owning organization
case-insensitively equals a set include-organization and case-insensitively
differs from a set exclude-organization, the two conditions composing
conjunctively; a notification failing the filter classifies to the
"filtered by org" Skip, whatever the reviewer data and login. -/
theorem matchesOrgFilter_spec (n : Notification) (cfg : Config) :
    (MatchesOrgFilter n cfg = true ↔
      (cfg.includeOrg ≠ [] → strLower n.repository.owner = strLower cfg.includeOrg)
      ∧ (cfg.excludeOrg ≠ [] → strLower n.repository.owner ≠ strLower cfg.excludeOrg))
    ∧ (MatchesOrgFilter n cfg = false →
        ∀ rev login, Classify n rev login cfg = ⟨n, .skip, "filtered by org".data⟩) := by
  constructor
  · unfold MatchesOrgFilter
    by_cases hi : cfg.includeOrg = [] <;> by_cases he : cfg.excludeOrg = [] <;>
      by_cases hfi : eqFold n.repository.owner cfg.includeOrg <;>
        by_cases hfe : eqFold n.repository.owner cfg.excludeOrg <;>
          simp_all [eqFold_iff, eqFold, bne_iff_ne]
  · intro hf rev login
    simp [Classify, hf]

/-- Witness for C6: an excluded org (case-insensitively, "ORG" vs "org")
forces the "filtered by org" Skip. -/
theorem matchesOrgFilter_spec_witness :
    Classify exPR (some ⟨["me".data], []⟩) "me".data ⟨[], "ORG".data⟩
      = ⟨exPR, .skip, "filtered by org".data⟩ :=
  (matchesOrgFilter_spec exPR ⟨[], "ORG".data⟩).2 (by rfl)
    (some ⟨["me".data], []⟩) "me".data

/-- C7: ClassifyAll yields exactly one decision per input notification, in
input order (it is the pointwise classification map), and the skip, keep
and mute counters of CountByAction partition the batch: their sum is the
number of notifications processed. -/
theorem classifyAll_partition (ns : List Notification)
    (revMap : Str → Option Reviewers) (login : Str) (cfg : Config) :
    ClassifyAll ns revMap login cfg
        = ns.map (fun n => Classify n (revMap n.subject.url) login cfg)
    ∧ (ClassifyAll ns revMap login cfg).length = ns.length
    ∧ (CountByAction (ClassifyAll ns revMap login cfg)).1
        + (CountByAction (ClassifyAll ns revMap login cfg)).2.1
        + (CountByAction (ClassifyAll ns revMap login cfg)).2.2 = ns.length := by
  have hmap : ClassifyAll ns revMap login cfg
      = ns.map (fun n => Classify n (revMap n.subject.url) login cfg) := by
    unfold ClassifyAll
    simpa using foldl_append_eq_map
      (fun n => Classify n (revMap n.subject.url) login cfg) ns []
  refine ⟨hmap, ?_, ?_⟩
  · rw [hmap]; simp
  · rw [countByAction_sum, hmap]; simp

-- Infrastructure for the URL-parsing claim: splitting on '/' is inverse
-- to joining with '/'.

def joinSlash : List Str → Str
  | [] => []
  | [p] => p
  | p :: ps => p ++ '/' :: joinSlash ps

lemma splitSlash_cons (c : Char) (rest : Str) :
    splitSlash (c :: rest) =
      if c = '/' then [] :: splitSlash rest
      else
        match splitSlash rest with
        | s :: ss => (c :: s) :: ss
        | [] => [[c]] := rfl

lemma joinSlash_cons (p : Str) (q : Str) (qs : List Str) :
    joinSlash (p :: q :: qs) = p ++ '/' :: joinSlash (q :: qs) := rfl

lemma splitSlash_ne_nil (l : Str) : splitSlash l ≠ [] := by
  cases l with
  | nil => simp [splitSlash]
  | cons c rest =>
    rw [splitSlash_cons]
    by_cases hc : c = '/'
    · simp [hc]
    · simp only [hc, if_false]
      cases h : splitSlash rest <;> simp

lemma splitSlash_sound (l : Str) :
    l = joinSlash (splitSlash l) ∧ ∀ p ∈ splitSlash l, '/' ∉ p := by
  induction l with
  | nil => simp [splitSlash, joinSlash]
  | cons c rest ih =>
    obtain ⟨h1, h2⟩ := ih
    by_cases hc : c = '/'
    · subst hc
      rw [splitSlash_cons, if_pos rfl]
      cases hs : splitSlash rest with
      | nil => exact absurd hs (splitSlash_ne_nil rest)
      | cons s ss =>
        rw [hs] at h1 h2
        refine ⟨?_, ?_⟩
        · rw [joinSlash_cons]
          simpa using h1
        · intro p hp
          rcases List.mem_cons.mp hp with rfl | hp
          · simp
          · exact h2 p (hs ▸ hp)
    · rw [splitSlash_cons, if_neg hc]
      cases hs : splitSlash rest with
      | nil => exact absurd hs (splitSlash_ne_nil rest)
      | cons s ss =>
        rw [hs] at h1 h2
        have hcs : '/' ∉ c :: s := by
          intro hmem
          rcases List.mem_cons.mp hmem with h | h
          · exact hc h.symm
          · exact h2 s (by simp) h
        cases ss with
        | nil =>
          refine ⟨?_, ?_⟩
          · show c :: rest = joinSlash [c :: s]
            show c :: rest = c :: s
            simpa [joinSlash] using h1
          · intro p hp
            rcases List.mem_cons.mp hp with rfl | hp
            · exact hcs
            · simp at hp
        | cons s2 ss2 =>
          refine ⟨?_, ?_⟩
          · rw [joinSlash_cons]
            show c :: rest = (c :: s) ++ '/' :: joinSlash (s2 :: ss2)
            have hrest : rest = s ++ '/' :: joinSlash (s2 :: ss2) := by
              simpa [joinSlash_cons] using h1
            simp [hrest]
          · intro p hp
            rcases List.mem_cons.mp hp with rfl | hp
            · exact hcs
            · exact h2 p (by simp [hp])

lemma splitSlash_no_slash (p : Str) (hp : '/' ∉ p) : splitSlash p = [p] := by
  induction p with
  | nil => rfl
  | cons c rest ih =>
    have hc : c ≠ '/' := fun h => hp (by simp [h])
    have hrest : '/' ∉ rest := fun h => hp (by simp [h])
    rw [splitSlash_cons, if_neg hc, ih hrest]

lemma splitSlash_append (p t : Str) (hp : '/' ∉ p) :
    splitSlash (p ++ '/' :: t) = p :: splitSlash t := by
  induction p with
  | nil =>
    show splitSlash ('/' :: t) = [] :: splitSlash t
    rw [splitSlash_cons, if_pos rfl]
  | cons c rest ih =>
    have hc : c ≠ '/' := fun h => hp (by simp [h])
    have hrest : '/' ∉ rest := fun h => hp (by simp [h])
    show splitSlash (c :: (rest ++ '/' :: t)) = (c :: rest) :: splitSlash t
    rw [splitSlash_cons, if_neg hc, ih hrest]

lemma splitSlash_join (ps : List Str) (hne : ps ≠ [])
    (hp : ∀ p ∈ ps, '/' ∉ p) : splitSlash (joinSlash ps) = ps := by
  induction ps with
  | nil => exact absurd rfl hne
  | cons p ps ih =>
    cases ps with
    | nil => exact splitSlash_no_slash p (hp p (by simp))
    | cons q qs =>
      rw [joinSlash_cons, splitSlash_append p _ (hp p (by simp))]
      rw [ih (by simp) (fun r hr => hp r (by simp [hr]))]

lemma dropRoot_iff (root s rest : Str) :
    dropRoot root s = some rest ↔ s = root ++ rest := by
  induction root generalizing s with
  | nil =>
    show dropRoot [] s = some rest ↔ s = rest
    simp [dropRoot, eq_comm]
  | cons c cs ih =>
    cases s with
    | nil => simp [dropRoot]
    | cons d ds =>
      show (if c = d then dropRoot cs ds else none) = some rest ↔ _
      by_cases hcd : c = d
      · subst hcd
        rw [if_pos rfl, ih]
        simp
      · rw [if_neg hcd]
        simp only [List.cons_append, List.cons_eq_cons]
        constructor
        · intro h; cases h
        · intro ⟨h, _⟩; exact absurd h.symm hcd

/-- C3 counterexample: ParseSubjectURL accepts a non-positive identifier.
The Atoi model parses "-5", so a pulls URL with number -5 yields a parsed
triple even though -5 is not a positive integer, against the claim that
only positive-integer identifiers parse. -/
theorem parseSubjectURL_accepts_nonpositive :
    ParseSubjectURL ("https://api.github.com/repos/org/repo/pulls/-5".data)
        = Except.ok ⟨"org".data, "repo".data, -5⟩
    ∧ (-5 : Int) < 1 := ⟨by rfl, by decide⟩

/-- C3 amended: ParseSubjectURL returns a parsed triple exactly when the
string has the shape <known-api-root>/repos/<owner>/<repo>/pulls/<n> with
no trailing path segments, where <n> is any optionally signed decimal
integer accepted by the integer parser (so zero and negatives included,
not only positive integers); in particular the canonical pulls URL
parses, while an issues URL, a reference with extra trailing segments and
a non-numeric identifier all fail with a typed error. -/
theorem parseSubjectURL_characterization (url : Str) (ref : PRRef) :
    (ParseSubjectURL url = .ok ref ↔
      ∃ numStr, url = apiRoot ++ joinSlash [ref.owner, ref.repo, "pulls".data, numStr]
        ∧ ('/' ∉ ref.owner) ∧ ('/' ∉ ref.repo) ∧ ('/' ∉ numStr)
        ∧ goAtoi numStr = some ref.number)
    ∧ ParseSubjectURL ("https://api.github.com/repos/org/repo/pulls/42".data)
        = Except.ok ⟨"org".data, "repo".data, 42⟩
    ∧ ParseSubjectURL ("https://api.github.com/repos/org/repo/issues/42".data)
        = Except.error (.badStructure "https://api.github.com/repos/org/repo/issues/42".data)
    ∧ ParseSubjectURL ("https://api.github.com/repos/org/repo/pulls/42/reviews".data)
        = Except.error (.badStructure "https://api.github.com/repos/org/repo/pulls/42/reviews".data)
    ∧ ParseSubjectURL ("https://api.github.com/repos/org/repo/pulls/abc".data)
        = Except.error (.badNumber "https://api.github.com/repos/org/repo/pulls/abc".data) := by
  refine ⟨?_, by rfl, by rfl, by rfl, by rfl⟩
  constructor
  · intro h
    unfold ParseSubjectURL at h
    cases hd : dropRoot apiRoot url with
    | none => simp only [hd] at h; exact Except.noConfusion h
    | some rest =>
      simp only [hd] at h
      have hurl : url = apiRoot ++ rest := (dropRoot_iff _ _ _).mp hd
      rcases hsp : splitSlash rest with _ | ⟨o, _ | ⟨r, _ | ⟨p, _ | ⟨numStr, _ | _⟩⟩⟩⟩ <;>
        simp only [hsp] at h <;>
          try exact Except.noConfusion h
      by_cases hp : p = "pulls".data
      · rw [if_pos hp] at h
        cases hn : goAtoi numStr with
        | none => simp only [hn] at h; exact Except.noConfusion h
        | some k =>
          simp only [hn] at h
          cases h
          obtain ⟨hjoin, hparts⟩ := splitSlash_sound rest
          rw [hsp] at hjoin hparts
          refine ⟨numStr, ?_, ?_, ?_, ?_, ?_⟩
          · rw [hurl, hjoin, hp]
          · exact hparts o (by simp)
          · exact hparts r (by simp)
          · exact hparts numStr (by simp)
          · exact hn
      · rw [if_neg hp] at h
        exact Except.noConfusion h
  · rintro ⟨numStr, hurl, ho, hr, hn, hatoi⟩
    have hd : dropRoot apiRoot url
        = some (joinSlash [ref.owner, ref.repo, "pulls".data, numStr]) :=
      (dropRoot_iff _ _ _).mpr hurl
    have hsp : splitSlash (joinSlash [ref.owner, ref.repo, "pulls".data, numStr])
        = [ref.owner, ref.repo, "pulls".data, numStr] := by
      refine splitSlash_join _ (by simp) ?_
      intro q hq
      simp only [List.mem_cons, List.not_mem_nil, or_false] at hq
      rcases hq with rfl | rfl | rfl | rfl
      · exact ho
      · exact hr
      · simp
      · exact hn
    unfold ParseSubjectURL
    simp [hd, hsp, hatoi]

/-- Witness for C3 amended: the canonical pulls URL satisfies the
characterization's shape, so it parses to (org, repo, 42). -/
theorem parseSubjectURL_characterization_witness :
    ParseSubjectURL ("https://api.github.com/repos/org/repo/pulls/42".data)
      = Except.ok ⟨"org".data, "repo".data, 42⟩ :=
  (parseSubjectURL_characterization
      ("https://api.github.com/repos/org/repo/pulls/42".data)
      ⟨"org".data, "repo".data, 42⟩).1.mpr
    ⟨"42".data, by rfl, by decide, by decide, by decide, by rfl⟩

/-- C9: Classify never depends on the team list of the reviewer set: two
present reviewer sets with equal user lists yield the same decision
(action and justification), whatever their team lists. -/
theorem classify_ignores_teams (n : Notification) (login : Str) (cfg : Config)
    (r1 r2 : Reviewers) (h : r1.users = r2.users) :
    Classify n (some r1) login cfg = Classify n (some r2) login cfg := by
  simp only [Classify, h]

/-- Witness for C9: same users, wildly different teams, same decision. -/
theorem classify_ignores_teams_witness :
    Classify exPR (some ⟨["alice".data], ["backend".data, "sre".data]⟩) "me".data cfg0
      = Classify exPR (some ⟨["alice".data], []⟩) "me".data cfg0 :=
  classify_ignores_teams exPR "me".data cfg0
    ⟨["alice".data], ["backend".data, "sre".data]⟩ ⟨["alice".data], []⟩ rfl

instance : Inhabited Reviewers := ⟨⟨[], []⟩⟩

def exPR2 : Notification :=
  ⟨"2".data, "review_requested".data, exSubject, ⟨"org/repo".data, "org".data⟩⟩

/-- A client whose reviewer lookups always fail and whose mutations
succeed. -/
def failClient : Client := ⟨"me".data, fun _ => none, fun _ => true, fun _ => true⟩

/-- A client whose reviewer lookups and mutations always succeed, with a
team-only reviewer set. -/
def okClient : Client :=
  ⟨"me".data, fun _ => some ⟨["alice".data], ["backend".data]⟩,
    fun _ => true, fun _ => true⟩

/-- C4 counterexample: the failure outcome of a lookup is not cached.
Two notifications sharing one subject reference, both needing a lookup
that fails, make the cycle fetch that reference twice, against the claim
that a lookup happens at most once per distinct reference with failures
cached. -/
theorem failed_lookup_fetched_twice :
    ¬ ((processNotifications failClient cfg0 [exPR, exPR2] false).log.count
        (Event.fetch exSubject.url) ≤ 1) := by decide

/-- Invariant for the dedup claim: at most one fetch of `url` so far, and
none at all while the cache has no entry for `url`. -/
def FetchInv (url : Str) (st : ProcState) : Prop :=
  st.log.count (Event.fetch url) ≤ 1 ∧
    (st.reviewersByURL.lookup url = none → st.log.count (Event.fetch url) = 0)

lemma mutateStep_cache_and_fetch (client : Client) (apply : Bool)
    (st : ProcState) (d : Decision) (url : Str) :
    (mutateStep client apply st d).reviewersByURL = st.reviewersByURL
    ∧ (mutateStep client apply st d).log.count (Event.fetch url)
        = st.log.count (Event.fetch url) := by
  unfold mutateStep
  by_cases h1 : apply ∧ d.action = Action.mute
  · by_cases h2 : client.markRead d.notification.id
    · by_cases h3 : client.ignoreThread d.notification.id <;>
        simp [h1, h2, h3, List.count_append, List.count_cons]
    · simp [h1, h2, List.count_append, List.count_cons]
  · simp [h1]

lemma lookupStep_fetchInv (client : Client) (cfg : Config) (st : ProcState)
    (n : Notification) (url : Str)
    (h : (client.getReviewers url).isSome = true)
    (hinv : FetchInv url st) : FetchInv url (lookupStep client cfg st n) := by
  obtain ⟨h1, h2⟩ := hinv
  unfold lookupStep
  by_cases hn : NeedsReviewerLookup n cfg
  · cases hlk : st.reviewersByURL.lookup n.subject.url with
    | some rs => simpa [hn, hlk] using ⟨h1, h2⟩
    | none =>
      cases hg : client.getReviewers n.subject.url with
      | some rs =>
        by_cases hu : n.subject.url = url
        · subst hu
          have h0 := h2 hlk
          constructor
          · simp [hn, hlk, hg, List.count_append, List.count_cons, h0]
          · intro hlk2
            simp only [hn, if_true, hlk, hg] at hlk2
            simp [List.lookup] at hlk2
        · constructor
          · simp [hn, hlk, hg, List.count_append, List.count_cons, hu, h1]
          · intro hlk2
            simp only [hn, if_true, hlk, hg] at hlk2
            simp only [List.lookup,
              show (url == n.subject.url) = false by simp [Ne.symm hu]] at hlk2
            simp [hn, hlk, hg, List.count_append, List.count_cons, hu, h2 hlk2]
      | none =>
        by_cases hu : n.subject.url = url
        · subst hu
          rw [hg] at h
          simp at h
        · constructor
          · simp [hn, hlk, hg, List.count_append, List.count_cons, hu, h1]
          · intro hlk2
            simp only [hn, if_true, hlk, hg] at hlk2
            simp [hn, hlk, hg, List.count_append, List.count_cons, hu, h2 hlk2]
  · simpa [hn] using ⟨h1, h2⟩

lemma processOne_fetchInv (client : Client) (cfg : Config) (apply : Bool)
    (st : ProcState) (n : Notification) (url : Str)
    (h : (client.getReviewers url).isSome = true)
    (hinv : FetchInv url st) :
    FetchInv url (processOne client cfg apply st n) := by
  have hl := lookupStep_fetchInv client cfg st n url h hinv
  unfold processOne
  set st1 := lookupStep client cfg st n
  set d := Classify n (st1.reviewersByURL.lookup n.subject.url) client.login cfg
  set st2 : ProcState := { st1 with decisions := st1.decisions ++ [d] }
  have hst2 : FetchInv url st2 := hl
  have hm := mutateStep_cache_and_fetch client apply st2 d url
  exact ⟨hm.2 ▸ hst2.1, fun hlk => hst2.2 (hm.1 ▸ hlk) ▸ hm.2⟩

/-- C4 amended: within one cycle a reviewer-set lookup happens at most
once per distinct subject reference whose lookup succeeds — a success is
cached keyed by subject reference, so a second notification referencing
the same pull request never triggers a second fetch; a failed lookup,
however, is not cached and may be fetched again (see the
counterexample). -/
theorem successful_lookup_fetched_once (client : Client) (cfg : Config)
    (ns : List Notification) (apply : Bool) (url : Str)
    (h : (client.getReviewers url).isSome = true) :
    (processNotifications client cfg ns apply).log.count (Event.fetch url) ≤ 1 := by
  suffices hgen : ∀ st : ProcState, FetchInv url st →
      FetchInv url (ns.foldl (processOne client cfg apply) st) by
    exact (hgen ⟨[], [], 0, []⟩ ⟨by simp, by simp⟩).1
  induction ns with
  | nil => intro st h1; simpa using h1
  | cons n rest ih =>
    intro st h1
    simp only [List.foldl_cons]
    exact ih (processOne client cfg apply st n)
      (processOne_fetchInv client cfg apply st n url h h1)

/-- Witness for C4 amended: two notifications sharing a reference, with a
succeeding client, fetch it at most once. -/
theorem successful_lookup_fetched_once_witness :
    (processNotifications okClient cfg0 [exPR, exPR2] false).log.count
        (Event.fetch exSubject.url) ≤ 1 :=
  successful_lookup_fetched_once okClient cfg0 [exPR, exPR2] false
    exSubject.url (by rfl)

-- Mutation-ordering infrastructure (claim on processNotifications'
-- mark-read / mute sequencing).

/-- The mutation of a decision fails when mark-read fails or, mark-read
having succeeded, the ignore call fails. -/
def muteFailed (client : Client) (d : Decision) : Bool :=
  !(client.markRead d.notification.id && client.ignoreThread d.notification.id)

/-- Whether a decision incurs a mutation error under --apply. -/
def muteErrored (client : Client) (d : Decision) : Bool :=
  match d.action with
  | .mute => muteFailed client d
  | _ => false

/-- Every ignore event in the log is immediately preceded by a mark event
of the same thread. -/
def ignoresImmediatelyAfterMark : List Event → Bool
  | [] => true
  | Event.ignore _ :: _ => false
  | Event.fetch _ :: rest => ignoresImmediatelyAfterMark rest
  | Event.mark id :: Event.ignore id2 :: rest =>
      id == id2 && ignoresImmediatelyAfterMark rest
  | Event.mark _ :: Event.fetch u :: rest =>
      ignoresImmediatelyAfterMark (Event.fetch u :: rest)
  | Event.mark _ :: Event.mark id2 :: rest =>
      ignoresImmediatelyAfterMark (Event.mark id2 :: rest)
  | [Event.mark _] => true

/-- Well-formed cycle logs: fetches, successful mark-read immediately
followed by its ignore, and failed mark-read with no ignore at all. -/
inductive GoodLog (client : Client) : List Event → Prop
  | nil : GoodLog client []
  | fetch (u : Str) (l : List Event) : GoodLog client l →
      GoodLog client (Event.fetch u :: l)
  | markOk (id : Str) (l : List Event) : client.markRead id = true →
      GoodLog client l → GoodLog client (Event.mark id :: Event.ignore id :: l)
  | markFail (id : Str) (l : List Event) : client.markRead id = false →
      GoodLog client l → GoodLog client (Event.mark id :: l)

lemma GoodLog.append {client : Client} {a b : List Event}
    (ha : GoodLog client a) (hb : GoodLog client b) : GoodLog client (a ++ b) := by
  induction ha with
  | nil => exact hb
  | fetch u l _ ih => exact .fetch u _ ih
  | markOk id l h _ ih => exact .markOk id _ h ih
  | markFail id l h _ ih => exact .markFail id _ h ih

lemma GoodLog.not_ignore_head {client : Client} {id : Str} {t : List Event}
    (h : GoodLog client (Event.ignore id :: t)) : False := by cases h

lemma GoodLog.ignore_mem {client : Client} {l : List Event}
    (h : GoodLog client l) : ∀ id, Event.ignore id ∈ l → client.markRead id = true := by
  induction h with
  | nil => intro id h; cases h
  | fetch u l _ ih =>
    intro id hm
    rcases List.mem_cons.mp hm with h | h
    · cases h
    · exact ih id h
  | markOk id2 l hmr _ ih =>
    intro id hm
    rcases List.mem_cons.mp hm with h | h
    · cases h
    · rcases List.mem_cons.mp h with h | h
      · cases h; exact hmr
      · exact ih id h
  | markFail id2 l hmr _ ih =>
    intro id hm
    rcases List.mem_cons.mp hm with h | h
    · cases h
    · exact ih id h

lemma GoodLog.iam {client : Client} {l : List Event}
    (h : GoodLog client l) : ignoresImmediatelyAfterMark l = true := by
  induction h with
  | nil => rfl
  | fetch u l _ ih => simpa [ignoresImmediatelyAfterMark] using ih
  | markOk id l hmr _ ih => simpa [ignoresImmediatelyAfterMark] using ih
  | markFail id l hmr hgl ih =>
    cases l with
    | nil => rfl
    | cons e t =>
      cases e with
      | ignore id2 => exact absurd hgl (fun h => h.not_ignore_head)
      | fetch u => simpa [ignoresImmediatelyAfterMark] using ih
      | mark id2 => simpa [ignoresImmediatelyAfterMark] using ih

/-- Invariant for the mutation claim: the log is well formed and the
error count equals the number of decisions whose mutation errored. -/
def MutInv (client : Client) (apply : Bool) (st : ProcState) : Prop :=
  GoodLog client st.log ∧
    st.errCount = (if apply then st.decisions.countP (muteErrored client) else 0)

lemma lookupStep_mutInv (client : Client) (cfg : Config) (apply : Bool)
    (st : ProcState) (n : Notification) (h : MutInv client apply st) :
    MutInv client apply (lookupStep client cfg st n)
    ∧ (lookupStep client cfg st n).decisions = st.decisions
    ∧ (lookupStep client cfg st n).errCount = st.errCount := by
  obtain ⟨hg, he⟩ := h
  unfold lookupStep
  by_cases hn : NeedsReviewerLookup n cfg
  · cases hlk : st.reviewersByURL.lookup n.subject.url with
    | some rs => exact ⟨⟨by simpa [hn, hlk] using hg, by simpa [hn, hlk] using he⟩,
        by simp [hn, hlk], by simp [hn, hlk]⟩
    | none =>
      cases hg2 : client.getReviewers n.subject.url with
      | some rs =>
        refine ⟨⟨?_, by simpa [hn, hlk, hg2] using he⟩,
          by simp [hn, hlk, hg2], by simp [hn, hlk, hg2]⟩
        simp only [hn, if_true, hlk, hg2]
        exact hg.append (.fetch _ _ .nil)
      | none =>
        refine ⟨⟨?_, by simpa [hn, hlk, hg2] using he⟩,
          by simp [hn, hlk, hg2], by simp [hn, hlk, hg2]⟩
        simp only [hn, if_true, hlk, hg2]
        exact hg.append (.fetch _ _ .nil)
  · exact ⟨⟨by simpa [hn] using hg, by simpa [hn] using he⟩,
      by simp [hn], by simp [hn]⟩

lemma mutateStep_mutInv (client : Client) (apply : Bool) (st : ProcState)
    (d : Decision) (hg : GoodLog client st.log)
    (he : st.errCount = if apply then st.decisions.countP (muteErrored client) else 0) :
    MutInv client apply
      (mutateStep client apply { st with decisions := st.decisions ++ [d] } d) := by
  unfold mutateStep
  by_cases hb : apply ∧ d.action = Action.mute
  · obtain ⟨hap, hmu⟩ := hb
    have hbt : (apply ∧ d.action = Action.mute) := ⟨hap, hmu⟩
    by_cases h2 : client.markRead d.notification.id
    · by_cases h3 : client.ignoreThread d.notification.id
      · rw [if_pos hbt, if_pos h2, if_pos h3]
        refine ⟨hg.append (.markOk _ _ h2 .nil), ?_⟩
        have hme : muteErrored client d = false := by
          simp [muteErrored, hmu, muteFailed, h2, h3]
        simp [he, hap, List.countP_append, List.countP_cons, hme]
      · rw [if_pos hbt, if_pos h2, if_neg h3]
        refine ⟨hg.append (.markOk _ _ h2 .nil), ?_⟩
        have hme : muteErrored client d = true := by
          simp [muteErrored, hmu, muteFailed, h2, h3]
        simp [he, hap, List.countP_append, List.countP_cons, hme]
    · rw [if_pos hbt, if_neg h2]
      refine ⟨hg.append (.markFail _ _ (by simpa using h2) .nil), ?_⟩
      have hme : muteErrored client d = true := by
        simp [muteErrored, hmu, muteFailed, h2]
      simp [he, hap, List.countP_append, List.countP_cons, hme]
  · rw [if_neg hb]
    refine ⟨hg, ?_⟩
    by_cases hap : apply
    · have hmu : d.action ≠ Action.mute := fun hc => hb ⟨hap, hc⟩
      have hme : muteErrored client d = false := by
        cases hda : d.action with
        | mute => exact absurd hda hmu
        | skip => simp [muteErrored, hda]
        | keep => simp [muteErrored, hda]
      simp [he, hap, List.countP_append, List.countP_cons, hme]
    · simp [he, hap]

lemma processOne_mutInv (client : Client) (cfg : Config) (apply : Bool)
    (st : ProcState) (n : Notification) (h : MutInv client apply st) :
    MutInv client apply (processOne client cfg apply st n) := by
  obtain ⟨⟨hg1, he1⟩, _, _⟩ := lookupStep_mutInv client cfg apply st n h
  exact mutateStep_mutInv client apply (lookupStep client cfg st n)
    (Classify n ((lookupStep client cfg st n).reviewersByURL.lookup n.subject.url)
      client.login cfg) hg1 he1

/-- C10: with the mutate flag set, the mute/ignore call for a thread is
issued only right after a successful mark-as-read for that thread — if
mark-as-read fails the ignore call never happens — and exactly one
mutation error is counted per Mute decision whose mutation failed,
whichever sub-step failed. -/
theorem mutation_discipline (client : Client) (cfg : Config)
    (ns : List Notification) (apply : Bool) :
    (∀ id, Event.ignore id ∈ (processNotifications client cfg ns apply).log →
        client.markRead id = true)
    ∧ ignoresImmediatelyAfterMark (processNotifications client cfg ns apply).log = true
    ∧ (processNotifications client cfg ns apply).errCount
        = (if apply then
            (processNotifications client cfg ns apply).decisions.countP
              (muteErrored client)
          else 0) := by
  have hinv : MutInv client apply (processNotifications client cfg ns apply) := by
    unfold processNotifications
    suffices hgen : ∀ st : ProcState, MutInv client apply st →
        MutInv client apply (ns.foldl (processOne client cfg apply) st) by
      exact hgen ⟨[], [], 0, []⟩ ⟨.nil, by simp⟩
    induction ns with
    | nil => intro st h; simpa using h
    | cons n rest ih =>
      intro st h
      simp only [List.foldl_cons]
      exact ih _ (processOne_mutInv client cfg apply st n h)
  exact ⟨fun id => hinv.1.ignore_mem id, hinv.1.iam, hinv.2⟩

/-- Witness for C10: in a run that mutes one thread, the ignore event in
the log certifies the mark-as-read of that thread succeeded. -/
theorem mutation_discipline_witness :
    Client.markRead okClient "1".data = true :=
  (mutation_discipline okClient cfg0 [exPR] true).1 "1".data (by decide)

/-- C5 counterexample: a "not modified" cycle and a "zero unread" cycle
are reported identically.  The single-run path prints the same
"No unread notifications." message for both, and the daemon path prints
the same "cycle: not modified" summary for both, so neither output path
distinguishes them. -/
theorem notModified_report_conflated :
    runOnceEmptyOutput ⟨[], true, [], 0⟩ = runOnceEmptyOutput ⟨[], false, [], 0⟩
    ∧ runDaemonCycleOutput [] okClient cfg0 false true ⟨[], true, [], 0⟩
        = runDaemonCycleOutput [] okClient cfg0 false true ⟨[], false, [], 0⟩
    ∧ runOnceEmptyOutput ⟨[], true, [], 0⟩ = some noUnreadMessage := by
  exact ⟨rfl, rfl, rfl⟩

lemma captureMeta_preserves (resp : HTTPResponse) (res : NotificationsResult) :
    (captureMeta resp res).notifications = res.notifications
    ∧ (captureMeta resp res).notModified = res.notModified := by
  unfold captureMeta
  by_cases h1 : resp.lastModified ≠ [] <;>
    cases h2 : goAtoi resp.pollInterval <;> simp [h1, h2]

lemma listUnreadAux_step (pages : Nat → Nat → HTTPResponse) (page : Nat)
    (acc : List Notification) (res : NotificationsResult) (tr : Trace) (f : Nat) :
    listUnreadAux pages page acc res tr (f + 1) =
      (let resp := (fetchPage pages page).1
       let tr2 : Trace := ⟨tr.requests ++ (fetchPage pages page).2.2,
                           tr.sleeps ++ (fetchPage pages page).2.1⟩
       let res2 := if page = 1 then captureMeta resp res else res
       if resp.status = 304 then some (.ok { res2 with notModified := true }, tr2)
       else if resp.status ≠ 200 then
         some (.error (.badStatus page resp.status), tr2)
       else
         match resp.body with
         | none => some (.error (.decodeFailure page), tr2)
         | some ns =>
           if ns = [] then some (.ok { res2 with notifications := acc }, tr2)
           else listUnreadAux pages (page + 1) (acc ++ ns) res2 tr2 f) := rfl

/-- C5 amended: a "not modified" first-page response ends the cycle with
zero notifications, and the fetch layer does report it distinctly from a
"zero unread" cycle through the result's NotModified flag; however the
reporting of both the single-run path and the daemon path conflates the
two cases, printing identical output whenever the cycle carries no
notifications. -/
theorem notModified_distinct_in_result (pages : Nat → Nat → HTTPResponse)
    (fuel : Nat) (hf : 0 < fuel) :
    ((fetchPage pages 1).1.status = 304 →
      (ListUnreadNotifications pages fuel).map
          (fun out => out.1.map (fun r => (r.notModified, r.notifications)))
        = some (.ok (true, [])))
    ∧ ((fetchPage pages 1).1.status = 200 → (fetchPage pages 1).1.body = some [] →
      (ListUnreadNotifications pages fuel).map
          (fun out => out.1.map (fun r => (r.notModified, r.notifications)))
        = some (.ok (false, [])))
    ∧ (∀ r1 r2 : NotificationsResult, r1.notifications = [] →
        r2.notifications = [] → runOnceEmptyOutput r1 = runOnceEmptyOutput r2)
    ∧ (∀ ts client cfg apply verbose, ∀ r1 r2 : NotificationsResult,
        r1.notifications = [] → r2.notifications = [] →
        runDaemonCycleOutput ts client cfg apply verbose r1
          = runDaemonCycleOutput ts client cfg apply verbose r2) := by
  cases fuel with
  | zero => exact absurd hf (lt_irrefl 0)
  | succ f =>
    refine ⟨?_, ?_, ?_, ?_⟩
    · intro h304
      unfold ListUnreadNotifications
      rw [listUnreadAux_step]
      simp only [h304]
      simp [Except.map,
        (captureMeta_preserves (fetchPage pages 1).1 ⟨[], false, [], 0⟩).1]
    · intro h200 hbody
      unfold ListUnreadNotifications
      rw [listUnreadAux_step]
      simp only [h200, hbody]
      simp [Except.map,
        (captureMeta_preserves (fetchPage pages 1).1 ⟨[], false, [], 0⟩).2]
    · intro r1 r2 h1 h2
      simp [runOnceEmptyOutput, h1, h2]
    · intro ts client cfg apply verbose r1 r2 h1 h2
      simp [runDaemonCycleOutput, h1, h2]

def resp304 : HTTPResponse := ⟨304, [], [], [], none⟩

/-- Witness for C5 amended: a server that answers 304 yields an ok cycle
with the NotModified flag set and no notifications. -/
theorem notModified_distinct_in_result_witness :
    (ListUnreadNotifications (fun _ _ => resp304) 1).map
        (fun out => out.1.map (fun r => (r.notModified, r.notifications)))
      = some (.ok (true, [])) :=
  (notModified_distinct_in_result (fun _ _ => resp304) 1 (by decide)).1 (by rfl)

lemma listUnreadAux_respEq (pages1 pages2 : Nat → Nat → HTTPResponse)
    (h : ∀ p, (fetchPage pages1 p).1 = (fetchPage pages2 p).1) :
    ∀ (f page : Nat) (acc : List Notification) (res : NotificationsResult)
      (tr1 tr2 : Trace),
      (listUnreadAux pages1 page acc res tr1 f).map Prod.fst
        = (listUnreadAux pages2 page acc res tr2 f).map Prod.fst := by
  intro f
  induction f with
  | zero => intro page acc res tr1 tr2; rfl
  | succ f ih =>
    intro page acc res tr1 tr2
    rw [listUnreadAux_step, listUnreadAux_step]
    simp only [h page]
    by_cases h304 : (fetchPage pages2 page).1.status = 304
    · rw [if_pos h304, if_pos h304]
      rfl
    · rw [if_neg h304, if_neg h304]
      by_cases h200 : (fetchPage pages2 page).1.status = 200
      · rw [if_neg (show ¬(fetchPage pages2 page).1.status ≠ 200 by simp [h200]),
            if_neg (show ¬(fetchPage pages2 page).1.status ≠ 200 by simp [h200])]
        cases hb : (fetchPage pages2 page).1.body with
        | none => rfl
        | some ns =>
          dsimp only
          by_cases hns : ns = []
          · rw [if_pos hns, if_pos hns]
            rfl
          · rw [if_neg hns, if_neg hns]
            exact ih (page + 1) (acc ++ ns) _ _ _
      · rw [if_pos (show (fetchPage pages2 page).1.status ≠ 200 from h200),
            if_pos (show (fetchPage pages2 page).1.status ≠ 200 from h200)]
        rfl

lemma listUnreadAux_requests (pages : Nat → Nat → HTTPResponse) :
    ∀ (f page : Nat) (acc : List Notification) (res : NotificationsResult)
      (tr : Trace) (out : Except ListError NotificationsResult × Trace),
      listUnreadAux pages page acc res tr f = some out →
      ∃ k, out.2.requests
        = tr.requests ++ (List.range' page k).flatMap (fun p => (fetchPage pages p).2.2) := by
  intro f
  induction f with
  | zero => intro page acc res tr out h; cases h
  | succ f ih =>
    intro page acc res tr out h
    rw [listUnreadAux_step] at h
    by_cases h304 : (fetchPage pages page).1.status = 304
    · rw [if_pos h304] at h
      refine ⟨1, ?_⟩
      rw [← Option.some_inj.mp h]
      simp [List.range'_one]
    · rw [if_neg h304] at h
      by_cases h200 : (fetchPage pages page).1.status = 200
      · rw [if_neg (show ¬(fetchPage pages page).1.status ≠ 200 by simp [h200])] at h
        cases hb : (fetchPage pages page).1.body with
        | none =>
          rw [hb] at h
          dsimp only at h
          refine ⟨1, ?_⟩
          rw [← Option.some_inj.mp h]
          simp [List.range'_one]
        | some ns =>
          rw [hb] at h
          dsimp only at h
          by_cases hns : ns = []
          · rw [if_pos hns] at h
            refine ⟨1, ?_⟩
            rw [← Option.some_inj.mp h]
            simp [List.range'_one]
          · rw [if_neg hns] at h
            obtain ⟨k, hk⟩ := ih (page + 1) (acc ++ ns) _ _ out h
            refine ⟨k + 1, ?_⟩
            rw [hk, List.range'_succ page k 1]
            simp [List.append_assoc]
      · rw [if_pos (show (fetchPage pages page).1.status ≠ 200 from h200)] at h
        refine ⟨1, ?_⟩
        rw [← Option.some_inj.mp h]
        simp [List.range'_one]

/-- C8: a throttled response (the rate-limit predicate covers an explicit
429 and a 403 carrying a Retry-After hint) makes the request layer sleep
for the parsed Retry-After duration — 60 seconds when the header is
absent or unparsable — and retry that same request exactly once, whatever
comes back then being surfaced; results depend only on the effective
(post-retry) response of each page, so throttled-then-success equals
immediate success; and the request log of a pagination run is the ordered
concatenation of per-page request blocks, so a throttled page is retried
in place and the cycle never restarts from page one. -/
theorem throttle_retry_policy :
    (∀ respond : Nat → HTTPResponse, isRateLimited (respond 0) = true →
        doRequest respond = ⟨respond 1, [parseRetryAfter (respond 0)]⟩)
    ∧ (∀ respond : Nat → HTTPResponse, isRateLimited (respond 0) = false →
        doRequest respond = ⟨respond 0, []⟩)
    ∧ (∀ r : HTTPResponse, r.retryAfter = [] ∨ goAtoi r.retryAfter = none →
        parseRetryAfter r = 60)
    ∧ (∀ pages1 pages2 : Nat → Nat → HTTPResponse, ∀ fuel : Nat,
        (∀ p, (fetchPage pages1 p).1 = (fetchPage pages2 p).1) →
        (ListUnreadNotifications pages1 fuel).map Prod.fst
          = (ListUnreadNotifications pages2 fuel).map Prod.fst)
    ∧ (∀ pages : Nat → Nat → HTTPResponse, ∀ fuel : Nat,
        ∀ out : Except ListError NotificationsResult × Trace,
        ListUnreadNotifications pages fuel = some out →
        ∃ k, out.2.requests
          = (List.range' 1 k).flatMap (fun p => (fetchPage pages p).2.2)) := by
  refine ⟨?_, ?_, ?_, ?_, ?_⟩
  · intro respond h
    unfold doRequest
    rw [if_pos h]
  · intro respond h
    unfold doRequest
    rw [if_neg (by simp [h])]
  · intro r h
    rcases h with h | h
    · simp [parseRetryAfter, h]
    · unfold parseRetryAfter
      by_cases he : r.retryAfter = []
      · simp [he]
      · simp [he, h]
  · intro pages1 pages2 fuel h
    exact listUnreadAux_respEq pages1 pages2 h fuel 1 [] _ _ _
  · intro pages fuel out h
    simpa using listUnreadAux_requests pages fuel 1 [] _ _ out h

def resp429 : HTTPResponse := ⟨429, "7".data, [], [], none⟩

def resp200 : HTTPResponse := ⟨200, [], [], [], some []⟩

def throttledOnce : Nat → HTTPResponse := fun att => if att = 0 then resp429 else resp200

/-- Witness for C8: a 429 with Retry-After 7 followed by a success yields
the success after one 7-second sleep. -/
theorem throttle_retry_policy_witness :
    doRequest throttledOnce = ⟨resp200, [7]⟩ := by
  rw [throttle_retry_policy.1 throttledOnce (by rfl)]
  rfl

end Mutemath
